import Mathlib

/-!
Verification development for the resume-upload service:
a shallow embedding of the server resume parser (src/server/resumeParser.ts),
the file-type text extractor (fileHandlers), and the client display helper
(src/client/src/utils/resumeParser.ts), together with theorems about them.

JavaScript regular expressions are embedded by a small backtracking engine
over an abstract syntax of the exact patterns appearing in the source.
Every unbounded quantifier in those patterns ranges over a single character
class, so greedy and lazy stars are primitive constructors parametrised by a
class predicate and the matcher is structurally recursive.
-/

set_option maxRecDepth 10000

namespace TechHires

/-! ### JavaScript character classes (ASCII-faithful, as in the source regexes) -/

/-- JavaScript whitespace for the regex class backslash-s and for trim:
tab, line feed, vertical tab, form feed, carriage return, space and the
Unicode space separators recognised by the JS engine. -/
def jsWs (c : Char) : Bool :=
  c = ' ' ∨ c = '\t' ∨ c = '\n' ∨ c = Char.ofNat 11 ∨ c = Char.ofNat 12 ∨
  c = Char.ofNat 13 ∨ c = Char.ofNat 0xa0 ∨ c = Char.ofNat 0x1680 ∨
  (Char.ofNat 0x2000 ≤ c ∧ c ≤ Char.ofNat 0x200a) ∨ c = Char.ofNat 0x2028 ∨
  c = Char.ofNat 0x2029 ∨ c = Char.ofNat 0x202f ∨ c = Char.ofNat 0x205f ∨
  c = Char.ofNat 0x3000 ∨ c = Char.ofNat 0xfeff

/-- The regex class backslash-d. -/
def jsDigit (c : Char) : Bool := '0' ≤ c ∧ c ≤ '9'

/-- The regex class backslash-w: ASCII letters, digits and underscore. -/
def jsWord (c : Char) : Bool :=
  ('a' ≤ c ∧ c ≤ 'z') ∨ ('A' ≤ c ∧ c ≤ 'Z') ∨ jsDigit c ∨ c = '_'

/-- The class A-Z. -/
def upperAZ (c : Char) : Bool := 'A' ≤ c ∧ c ≤ 'Z'

/-- The class a-z. -/
def lowerAZ (c : Char) : Bool := 'a' ≤ c ∧ c ≤ 'z'

/-- The class a-zA-Z. -/
def asciiAlpha (c : Char) : Bool := lowerAZ c ∨ upperAZ c

/-- JavaScript String.prototype.trim on a character list. -/
def jsTrim (l : List Char) : List Char :=
  ((l.dropWhile jsWs).reverse.dropWhile jsWs).reverse

/-! ### A backtracking regex engine for the patterns of this repository -/

/-- Capture environment: group index paired with the captured characters.
A group absent from the list corresponds to an undefined capture in JS. -/
abbrev Caps := List (Nat × List Char)

/-- Abstract syntax of the JS regexes used by the repository.  Greedy and
lazy stars are restricted to a single character class, which is exactly the
shape of every unbounded quantifier in the source patterns. -/
inductive RE where
  | eps : RE
  | cls (p : Char → Bool) : RE
  | seq (a b : RE) : RE
  | alt (a b : RE) : RE
  | opt (a : RE) : RE
  | starG (p : Char → Bool) : RE
  | starL (p : Char → Bool) : RE
  | group (i : Nat) (a : RE) : RE

/-- Longest prefix of characters satisfying the class, with the remainder. -/
def takeRun (p : Char → Bool) : List Char → List Char × List Char
  | [] => ([], [])
  | c :: rest =>
    if p c then
      let r := takeRun p rest
      (c :: r.1, r.2)
    else ([], c :: rest)

/-- All ways to split a class run, longest consumption first (greedy order).
The first component of each entry is the consumed prefix, the second the
remaining input. -/
def splitsDesc (run rest : List Char) : List (List Char × List Char) :=
  match run with
  | [] => [([], rest)]
  | c :: rs =>
    ((splitsDesc rs rest).map fun x => (c :: x.1, x.2)) ++ [([], c :: rs ++ rest)]

/-- The backtracking matcher.  Given a pattern and an input suffix, returns
every possible outcome (consumed characters, remaining input, captures) in
JS backtracking priority order: the head of the list is the outcome the JS
engine commits to.  Alternation prefers the left branch, the optional
quantifier prefers presence, the greedy star prefers longest consumption and
the lazy star shortest. -/
def mat : RE → List Char → List (List Char × List Char × Caps)
  | .eps, l => [([], l, [])]
  | .cls _, [] => []
  | .cls p, c :: rest => if p c then [([c], rest, [])] else []
  | .seq a b, l =>
    (mat a l).flatMap fun x =>
      (mat b x.2.1).map fun y => (x.1 ++ y.1, y.2.1, x.2.2 ++ y.2.2)
  | .alt a b, l => mat a l ++ mat b l
  | .opt a, l => mat a l ++ [([], l, [])]
  | .starG p, l =>
    let r := takeRun p l
    (splitsDesc r.1 r.2).map fun x => (x.1, x.2, [])
  | .starL p, l =>
    let r := takeRun p l
    (splitsDesc r.1 r.2).reverse.map fun x => (x.1, x.2, [])
  | .group i a, l =>
    (mat a l).map fun x => (x.1, x.2.1, (i, x.1) :: x.2.2)

/-- Look up a capture group; `none` models a JS undefined capture. -/
def capLookup (k : Caps) (i : Nat) : Option (List Char) :=
  (k.find? fun e => e.1 = i).map fun e => e.2

/-- First (leftmost) match of a pattern in the input, scanning start
positions left to right as the JS engine does.  Returns the start offset,
the matched characters, the input remaining after the match and the
captures. -/
def findFrom (re : RE) : List Char → Option (Nat × List Char × List Char × Caps)
  | [] => (mat re []).head?.map fun x => (0, x)
  | c :: rest =>
    match (mat re (c :: rest)).head? with
    | some x => some (0, x)
    | none => (findFrom re rest).map fun y => (y.1 + 1, y.2)

/-- Drop characters through the next line feed; `none` when there is none. -/
def skipLine : List Char → Option (List Char)
  | [] => none
  | c :: rest => if c = '\n' then some rest else skipLine rest

/-- Fuelled search for a match anchored at a line start (a JS pattern whose
body begins with the multiline caret): try the current position, which is
assumed to be a line start, then the position after each subsequent line
feed.  The fuel is an upper bound on the number of lines. -/
def findLineStartFuel (re : RE) : Nat → List Char → Option (List Char × Caps)
  | 0, _ => none
  | fuel + 1, l =>
    match (mat re l).head? with
    | some x => some (x.1, x.2.2)
    | none =>
      match skipLine l with
      | some rest => findLineStartFuel re fuel rest
      | none => none

/-- First line-anchored match in the input. -/
def findLineStart (re : RE) (l : List Char) : Option (List Char × Caps) :=
  findLineStartFuel re (l.length + 1) l

/-- Fuelled transcription of the JS global-exec loop: repeatedly take the
next match and resume scanning after it.  Every pattern iterated this way in
the source consumes at least one character per match, so fuel one larger
than the input length is always sufficient. -/
def allMatchesFuel (re : RE) : Nat → List Char → List (List Char × Caps)
  | 0, _ => []
  | fuel + 1, l =>
    match findFrom re l with
    | none => []
    | some x =>
      (x.2.1, x.2.2.2) ::
        (if x.1 + x.2.1.length = 0 then [] else allMatchesFuel re fuel x.2.2.1)

/-- All matches of a global pattern, in document order. -/
def allMatches (re : RE) (l : List Char) : List (List Char × Caps) :=
  allMatchesFuel re (l.length + 1) l

/-! ### Pattern construction helpers -/

/-- Exact character. -/
def chr (c : Char) : RE := .cls (· = c)

/-- Case-insensitive character (the i flag on ASCII letters). -/
def chrCI (c : Char) : RE := .cls (fun x => x.toLower = c.toLower)

/-- Sequence a list of patterns. -/
def seqAll : List RE → RE
  | [] => .eps
  | [r] => r
  | r :: rs => .seq r (seqAll rs)

/-- Case-sensitive literal. -/
def lit (s : String) : RE := seqAll (s.data.map chr)

/-- Case-insensitive literal. -/
def litCI (s : String) : RE := seqAll (s.data.map chrCI)

/-- Greedy plus over a character class. -/
def plusG (p : Char → Bool) : RE := .seq (.cls p) (.starG p)

/-- Left-nested alternation of a non-empty list, first alternative first. -/
def altAll : List RE → RE
  | [] => .eps
  | [r] => r
  | r :: rs => .alt r (altAll rs)

/-! ### The concrete patterns of src/server/resumeParser.ts -/

/-- Name pattern, line 35: a caret-anchored multiline group of an uppercase
letter, lowercase letters, then one or two further capitalised words each
preceded by whitespace. -/
def nameUnit : RE := .seq (plusG jsWs) (.seq (.cls upperAZ) (plusG lowerAZ))

/-- The full name pattern of line 35. -/
def nameRE : RE :=
  .group 1 (.seq (.cls upperAZ) (.seq (plusG lowerAZ) (.seq nameUnit (.opt nameUnit))))

/-- The email local-part class of line 41. -/
def emailLocalC (c : Char) : Bool :=
  jsWord c ∨ c = '.' ∨ c = '_' ∨ c = '%' ∨ c = '+' ∨ c = '-'

/-- The email domain class of line 41. -/
def emailDomC (c : Char) : Bool := jsWord c ∨ c = '.' ∨ c = '-'

/-- Email pattern, line 41. -/
def emailRE : RE :=
  seqAll [plusG emailLocalC, chr '@', plusG emailDomC, chr '.',
          .cls asciiAlpha, .cls asciiAlpha, .starG asciiAlpha]

/-- Three digits. -/
def dig3 : RE := seqAll [.cls jsDigit, .cls jsDigit, .cls jsDigit]

/-- The separator class of the phone pattern. -/
def phoneSepC (c : Char) : Bool := c = '-' ∨ c = '.' ∨ jsWs c

/-- Phone pattern, line 47: optional country code group, area code group
(parenthesised or plain), then separator-tolerant 3+4 digits. -/
def phoneRE : RE :=
  seqAll [.opt (.group 1 (seqAll [chr '+', .cls jsDigit, .opt (.cls jsDigit), .opt (.cls jsWs)])),
          .group 2 (.alt (seqAll [chr '(', dig3, chr ')']) dig3),
          .opt (.cls phoneSepC), dig3, .opt (.cls phoneSepC),
          seqAll [.cls jsDigit, .cls jsDigit, .cls jsDigit, .cls jsDigit]]

/-- The negated class of the degree field suffix: any character other than
comma, line feed and full stop. -/
def notCommaNlDot (c : Char) : Bool := ¬ (c = ',' ∨ c = '\n' ∨ c = '.')

/-- The optional in-or-dash connector of the degree patterns (the i flag
applies to the literal). -/
def degConnector : RE :=
  .opt (.alt (seqAll [.cls jsWs, litCI "in", .cls jsWs])
             (seqAll [.cls jsWs, chr '-', .cls jsWs]))

/-- The captured degree field. -/
def degSuffix : RE := .group 1 (plusG notCommaNlDot)

/-- An abbreviation of the shape X optional-dot Y optional-dot. -/
def abbrev2 (a b : Char) : RE :=
  seqAll [chrCI a, .opt (chr '.'), chrCI b, .opt (chr '.')]

/-- The seven degree patterns of lines 55-61, in source order. -/
def degreePatterns : List RE :=
  [ .seq (altAll [abbrev2 'B' 'S', litCI "Bachelor of Science",
                  seqAll [litCI "Bachelor", .opt (chr (Char.ofNat 39)), litCI "s Degree"]])
         (.seq degConnector degSuffix),
    .seq (altAll [abbrev2 'B' 'A', litCI "Bachelor of Arts",
                  seqAll [litCI "Bachelor", .opt (chr (Char.ofNat 39)), litCI "s Degree"]])
         (.seq degConnector degSuffix),
    .seq (altAll [abbrev2 'M' 'S', litCI "Master of Science",
                  seqAll [litCI "Master", .opt (chr (Char.ofNat 39)), litCI "s Degree"]])
         (.seq degConnector degSuffix),
    altAll [seqAll [chrCI 'M', .opt (chr '.'), chrCI 'B', .opt (chr '.'),
                    chrCI 'A', .opt (chr '.')],
            litCI "Master of Business Administration"],
    .seq (altAll [seqAll [chrCI 'P', chrCI 'h', .opt (chr '.'), chrCI 'D', .opt (chr '.')],
                  litCI "Doctor of Philosophy"])
         (.seq degConnector degSuffix),
    altAll [abbrev2 'M' 'D', litCI "Doctor of Medicine"],
    altAll [abbrev2 'J' 'D', litCI "Juris Doctor"] ]

/-- The case-sensitive separator used on line 68 to split a degree match:
whitespace-in-whitespace or whitespace-dash-whitespace. -/
def degSplitRE : RE :=
  .alt (seqAll [.cls jsWs, lit "in", .cls jsWs])
       (seqAll [.cls jsWs, chr '-', .cls jsWs])

/-- JS match-zero split-and-take-head of line 68: the prefix of the matched
text before the first occurrence of the split separator. -/
def degSplitHead (m : List Char) : List Char :=
  match findFrom degSplitRE m with
  | some x => m.take x.1
  | none => m

/-- One collected degree entry, lines 67-71: when capture one is truthy the
entry is the split head, the literal in, and the trimmed capture; otherwise
the trimmed whole match. -/
def degreeEntry (m : List Char) (k : Caps) : String :=
  match capLookup k 1 with
  | some v =>
    if v ≠ [] then String.mk (degSplitHead m) ++ " in " ++ String.mk (jsTrim v)
    else String.mk (jsTrim m)
  | none => String.mk (jsTrim m)

/-- The raw degrees list of lines 64-73: all matches of every degree
pattern, in pattern order then document order. -/
def degreesRaw (t : List Char) : List String :=
  degreePatterns.flatMap fun pat =>
    (allMatches pat t).map fun x => degreeEntry x.1 x.2

/-- The seven fixed skill tables of lines 79-100, in source order. -/
def skillPatterns : List RE :=
  [ altAll [litCI "JavaScript", litCI "TypeScript", litCI "Python", litCI "Java",
            litCI "C++", litCI "C#", litCI "Ruby", litCI "PHP", litCI "Swift",
            litCI "Kotlin", litCI "Go", litCI "Rust", litCI "SQL", litCI "HTML",
            litCI "CSS"],
    altAll [litCI "React", litCI "Angular",
            seqAll [litCI "Vue", .opt (chr '.'), litCI "js"],
            seqAll [litCI "Node", .opt (chr '.'), litCI "js"],
            litCI "Express", litCI "Django", litCI "Flask", litCI "Spring",
            litCI "Laravel", litCI "Ruby on Rails", litCI "TensorFlow",
            litCI "PyTorch", litCI "Pandas", litCI "NumPy"],
    altAll [litCI "MongoDB", litCI "MySQL", litCI "PostgreSQL", litCI "Oracle",
            litCI "SQL Server", litCI "Redis", litCI "Cassandra", litCI "DynamoDB"],
    altAll [litCI "AWS", litCI "Amazon Web Services", litCI "Azure",
            litCI "Google Cloud", litCI "GCP", litCI "Heroku", litCI "Firebase"],
    altAll [litCI "Docker", litCI "Kubernetes", litCI "Jenkins", litCI "CI/CD",
            litCI "Git", litCI "GitHub", litCI "GitLab", litCI "Terraform"],
    altAll [litCI "Photoshop", litCI "Illustrator", litCI "Figma", litCI "Sketch",
            litCI "UI/UX", litCI "Adobe XD"],
    altAll [litCI "Leadership", litCI "Communication", litCI "Teamwork",
            seqAll [litCI "Problem", .cls (fun c => jsWs c ∨ c = '-'), litCI "Solving"],
            litCI "Critical Thinking", litCI "Project Management", litCI "Agile",
            litCI "Scrum"] ]

/-- The raw fixed-table skills, lines 102-107: every match of every table,
trimmed, in table order then document order. -/
def skillTableRaw (t : List Char) : List String :=
  skillPatterns.flatMap fun pat =>
    (allMatches pat t).map fun x => String.mk (jsTrim x.1)

/-- The section heading separator of lines 110 and 136: either optional
whitespace, a colon and optional whitespace, or mandatory whitespace. -/
def secSep : RE :=
  .alt (seqAll [.starG jsWs, chr ':', .starG jsWs]) (plusG jsWs)

/-- The section end of lines 110 and 136: a blank line or a line feed
followed by an uppercase letter. -/
def secTail : RE :=
  .alt (.seq (chr '\n') (chr '\n')) (.seq (chr '\n') (.cls upperAZ))

/-- The section pattern of lines 110 and 136, parametrised by the heading
keyword: the keyword (case-insensitive), the separator, a lazily captured
body, the section end. -/
def sectionRE (kw : String) : RE :=
  seqAll [litCI kw, secSep, .group 1 (.starL fun _ => true), secTail]

/-- The body captured by the first match of the section pattern. -/
def sectionCapture (kw : String) (t : List Char) : Option (List Char) :=
  (findFrom (sectionRE kw) t).bind fun x => capLookup x.2.2.2 1

/-- The separator class of the split on line 113.  The source file holds the
three characters U+00E2, U+20AC and U+00A2 at this position (the UTF-8 bytes
of the bullet U+2022 each read as a character), so the class is a comma,
those three characters and the line feed; the bullet character itself is not
in the class. -/
def skillSplitC (c : Char) : Bool :=
  c = ',' ∨ c = Char.ofNat 0xe2 ∨ c = Char.ofNat 0x20ac ∨ c = Char.ofNat 0xa2 ∨ c = '\n'

mutual

/-- JS String.prototype.split on a one-or-more-of-a-class pattern: the
segments between maximal separator runs, keeping empty edge segments.
This function accumulates the current segment (reversed). -/
def splitRunsAux (p : Char → Bool) (acc : List Char) : List Char → List (List Char)
  | [] => [acc.reverse]
  | c :: rest =>
    if p c then acc.reverse :: splitRunsSkip p rest
    else splitRunsAux p (c :: acc) rest

/-- Companion of splitRunsAux: inside a separator run. -/
def splitRunsSkip (p : Char → Bool) : List Char → List (List Char)
  | [] => [[]]
  | c :: rest => if p c then splitRunsSkip p rest else splitRunsAux p [c] rest

end

/-- JS split on a maximal run of separator-class characters. -/
def splitRuns (p : Char → Bool) (l : List Char) : List (List Char) :=
  splitRunsAux p [] l

/-- The additional skills of lines 110-118: when the skills section matched
with a truthy capture, its body split on the separator class, each token
trimmed, kept when its length is above two and below thirty. -/
def skillsSectionTokens (t : List Char) : List String :=
  match sectionCapture "skills" t with
  | some v =>
    if v = [] then []
    else (((splitRuns skillSplitC v).map jsTrim).filter
            fun s => 2 < s.length ∧ s.length < 30).map String.mk
  | none => []

/-- The experience-years pattern of line 123: captured digits, optional
plus, whitespace, year with optional s, optional whitespace-of, whitespace,
experience; case-insensitive. -/
def expYearsRE : RE :=
  seqAll [.group 1 (plusG jsDigit), .opt (chr '+'), plusG jsWs, litCI "year",
          .opt (chrCI 's'), .opt (.seq (plusG jsWs) (litCI "of")),
          plusG jsWs, litCI "experience"]

/-- The fixed job-title list of lines 129-133, in source order. -/
def positions : List String :=
  ["Software Engineer", "Software Developer", "Front-end Developer",
   "Back-end Developer", "Full-stack Developer", "Data Scientist",
   "Data Engineer", "Machine Learning Engineer", "DevOps Engineer",
   "Product Manager", "Project Manager", "UX Designer", "UI Designer"]

/-- JS String.prototype.includes: case-sensitive substring test. -/
def hasSub (needle : List Char) : List Char → Bool
  | [] => needle.isEmpty
  | c :: rest => needle.isPrefixOf (c :: rest) || hasSub needle rest

/-- The word-or-whitespace class of the job-title pattern. -/
def wordWsC (c : Char) : Bool := jsWord c ∨ jsWs c

/-- The company-name class of the job patterns. -/
def companyC (c : Char) : Bool := jsWord c ∨ jsWs c ∨ c = '&'

/-- The line-start job-title pattern of line 139 (multiline, case-sensitive):
a captured run of word or whitespace characters, optionally followed by
whitespace, a separator, whitespace and a captured company span. -/
def jobRE : RE :=
  .seq (.group 1 (plusG wordWsC))
       (.opt (seqAll [plusG jsWs, altAll [lit "at", lit "@", lit "|"],
                      plusG jsWs, .group 2 (plusG companyC)]))

/-- The company pattern of line 149, built from a position title: the title
(case-insensitive), whitespace, a separator, whitespace and a captured
company span. -/
def companyRE (pos : String) : RE :=
  seqAll [litCI pos, plusG jsWs, altAll [litCI "at", lit "@", lit "|"],
          plusG jsWs, .group 1 (plusG companyC)]

/-- Lines 137-158 applied to a non-empty experience section body: a
line-start job match wins verbatim (trimmed); otherwise the first title of
the fixed list appearing as a substring, with a company suffix when the
company pattern matches with a truthy capture. -/
def lastPositionOf (sec : List Char) : Option String :=
  match findLineStart jobRE sec with
  | some x => some (String.mk (jsTrim x.1))
  | none =>
    (positions.find? fun p => hasSub p.data sec).map fun p =>
      match findFrom (companyRE p) sec with
      | some y =>
        match capLookup y.2.2.2 1 with
        | some v => if v ≠ [] then p ++ " at " ++ String.mk (jsTrim v) else p
        | none => p
      | none => p

/-- Insertion-ordered deduplication with a seen accumulator: the embedding
of the JS spread of a Set built from an array. -/
def dedupFirstAux (seen : List String) : List String → List String
  | [] => []
  | x :: xs =>
    if x ∈ seen then dedupFirstAux seen xs else x :: dedupFirstAux (x :: seen) xs

/-- Insertion-ordered deduplication, first occurrence kept. -/
def dedupFirst (l : List String) : List String := dedupFirstAux [] l

/-- The partial resume record produced by the parser: every field of the
shared schema that parseResumeText may set, each optional exactly as in
Partial of Resume. -/
structure ResumeData where
  name : Option String := none
  email : Option String := none
  phone : Option String := none
  qualifications : Option (List String) := none
  skills : Option (List String) := none
  totalYears : Option String := none
  lastPosition : Option String := none
  deriving Repr, DecidableEq

/-- The embedding of parseResumeText, lines 30-161 of
src/server/resumeParser.ts.  Each field is the independent pattern search of
the source; the two list fields are always set, deduplicated in insertion
order. -/
def parseResumeText (text : String) : ResumeData :=
  let t := text.data
  { name := (findLineStart nameRE t).bind fun x =>
      (capLookup x.2 1).map fun v => String.mk (jsTrim v)
    email := (findFrom emailRE t).map fun x => String.mk (jsTrim x.2.1)
    phone := (findFrom phoneRE t).map fun x => String.mk (jsTrim x.2.1)
    qualifications := some (dedupFirst (degreesRaw t))
    skills := some (dedupFirst (skillTableRaw t ++ skillsSectionTokens t))
    totalYears := (findFrom expYearsRE t).bind fun x =>
      (capLookup x.2.2.2 1).map fun v => String.mk v ++ " years"
    lastPosition :=
      match sectionCapture "experience" t with
      | some sec => if sec = [] then none else lastPositionOf sec
      | none => none }

/-! ### UTF-8 encoding and decoding (the Node buffer text semantics) -/

/-- The replacement character U+FFFD. -/
def repl : Char := Char.ofNat 0xfffd

/-- Whether a byte is a UTF-8 continuation byte. -/
def isCont (b : Nat) : Bool := 0x80 ≤ b ∧ b < 0xc0

/-- UTF-8 encoding of one scalar value (a Lean Char is always a scalar). -/
def utf8EncodeChar (c : Char) : List Nat :=
  let n := c.toNat
  if n < 0x80 then [n]
  else if n < 0x800 then [0xc0 + n / 64, 0x80 + n % 64]
  else if n < 0x10000 then
    [0xe0 + n / 4096, 0x80 + n / 64 % 64, 0x80 + n % 64]
  else
    [0xf0 + n / 262144, 0x80 + n / 4096 % 64, 0x80 + n / 64 % 64, 0x80 + n % 64]

/-- UTF-8 encoding of a character list. -/
def utf8Encode (l : List Char) : List Nat := l.flatMap utf8EncodeChar

/-- Lossy UTF-8 decoding with replacement-character substitution, the
behaviour of Node buffer-to-string with the utf-8 encoding: well-formed
sequences decode to their scalar value, a malformed lead or an out-of-range
continuation emits U+FFFD and resumes at the offending byte, and a
truncated sequence at the end emits a single U+FFFD.  The second and later
byte range checks encode the well-formedness table (overlong forms,
surrogates and values above U+10FFFF rejected). -/
def utf8Decode : List Nat → List Char
  | [] => []
  | b :: rest =>
    if b < 0x80 then Char.ofNat b :: utf8Decode rest
    else if b < 0xc2 then repl :: utf8Decode rest
    else if b < 0xe0 then
      match rest with
      | [] => [repl]
      | b2 :: r2 =>
        if isCont b2 then Char.ofNat ((b - 0xc0) * 64 + (b2 - 0x80)) :: utf8Decode r2
        else repl :: utf8Decode (b2 :: r2)
    else if b < 0xf0 then
      match rest with
      | [] => [repl]
      | b2 :: r2 =>
        if (if b = 0xe0 then 0xa0 ≤ b2 ∧ b2 < 0xc0
            else if b = 0xed then 0x80 ≤ b2 ∧ b2 < 0xa0
            else isCont b2) then
          match r2 with
          | [] => [repl]
          | b3 :: r3 =>
            if isCont b3 then
              Char.ofNat ((b - 0xe0) * 4096 + (b2 - 0x80) * 64 + (b3 - 0x80)) ::
                utf8Decode r3
            else repl :: utf8Decode (b3 :: r3)
        else repl :: utf8Decode (b2 :: r2)
    else if b < 0xf5 then
      match rest with
      | [] => [repl]
      | b2 :: r2 =>
        if (if b = 0xf0 then 0x90 ≤ b2 ∧ b2 < 0xc0
            else if b = 0xf4 then 0x80 ≤ b2 ∧ b2 < 0x90
            else isCont b2) then
          match r2 with
          | [] => [repl]
          | b3 :: r3 =>
            if isCont b3 then
              match r3 with
              | [] => [repl]
              | b4 :: r4 =>
                if isCont b4 then
                  Char.ofNat ((b - 0xf0) * 262144 + (b2 - 0x80) * 4096 +
                      (b3 - 0x80) * 64 + (b4 - 0x80)) :: utf8Decode r4
                else repl :: utf8Decode (b4 :: r4)
            else repl :: utf8Decode (b3 :: r3)
        else repl :: utf8Decode (b2 :: r2)
    else repl :: utf8Decode rest

/-! ### The file handlers (src fileHandlers module) -/

/-- The diagnostic sentinel of the TXT catch branch, line 41. -/
def txtSentinel : String :=
  "Error: Could not extract text from this TXT file. The file may be corrupted or in an unsupported format."

/-- Node buffer-to-string with the utf-8 encoding.  Node never throws here:
decoding is total and lossy, so the result is always the ok branch.  The
Except form records that the surrounding source wraps this call in a
try-catch. -/
def bufferToStringUtf8 (buf : List Nat) : Except String String :=
  .ok (String.mk (utf8Decode buf))

/-- extractTextFromTXT, lines 36-43: the decoded buffer, or the sentinel
from the catch branch were decoding ever to throw. -/
def extractTextFromTXT (buf : List Nat) : String :=
  match bufferToStringUtf8 buf with
  | .ok s => s
  | .error _ => txtSentinel

/-- The Office Open XML word-processing content type. -/
def docxType : String :=
  "application/vnd.openxmlformats-officedocument.wordprocessingml.document"

/-- extractTextFromFile, lines 48-61.  The PDF and DOCX decoders are the
external libraries, passed as parameters; each is total because the source
wraps the library call in a try-catch returning a sentinel string.  An
unrecognised content type throws, modelled by the error branch carrying the
thrown message. -/
def extractTextFromFile (pdfDec docxDec : List Nat → String)
    (buffer : List Nat) (contentType : String) : Except String String :=
  if contentType = "application/pdf" then .ok (pdfDec buffer)
  else if contentType = docxType then .ok (docxDec buffer)
  else if contentType = "text/plain" then .ok (extractTextFromTXT buffer)
  else .error ("Unsupported file type: " ++ contentType)

/-- The full resume record of the shared schema. -/
structure Resume where
  id : String
  filename : String
  contentType : String
  rawText : String
  name : Option String := none
  email : Option String := none
  phone : Option String := none
  qualifications : List String := []
  skills : List String := []
  totalYears : Option String := none
  lastPosition : Option String := none
  deriving Repr, DecidableEq

/-- processResume, lines 8-25 of src/server/resumeParser.ts: extract the
text, then merge the file metadata and generated identifier with the parsed
fields.  The identifier is the generated uuid, passed as a parameter; the
two list fields of the parse result are always set (proved below), so the
spread yields them directly, with the schema default as the impossible
fallback. -/
def processResume (pdfDec docxDec : List Nat → String) (id filename mimetype : String)
    (buffer : List Nat) : Except String Resume :=
  (extractTextFromFile pdfDec docxDec buffer mimetype).map fun text =>
    let parsed := parseResumeText text
    { id := id
      filename := filename
      contentType := mimetype
      rawText := text
      name := parsed.name
      email := parsed.email
      phone := parsed.phone
      qualifications := parsed.qualifications.getD []
      skills := parsed.skills.getD []
      totalYears := parsed.totalYears
      lastPosition := parsed.lastPosition }

/-! ### The client display helper (src/client/src/utils/resumeParser.ts) -/

/-- The keyword table of extractKeySkills, lines 12-29 of the client helper,
in source order: programming languages, then frameworks, then tools. -/
def allKeywords : List String :=
  ["JavaScript", "TypeScript", "Python", "Java", "C#", "C++", "Ruby", "PHP",
   "Swift", "Kotlin", "Go", "Rust", "Scala", "Perl", "R",
   "React", "Angular", "Vue", "Next.js", "Node.js", "Express", "Django",
   "Flask", "Spring", "ASP.NET", "Laravel", "Rails", "TensorFlow", "PyTorch",
   "Pandas", "NumPy", "jQuery", "Bootstrap", "Tailwind CSS",
   "Docker", "Kubernetes", "AWS", "Azure", "GCP", "Git", "CI/CD", "Jenkins",
   "GitHub Actions", "REST API", "GraphQL", "SQL", "NoSQL", "MongoDB", "MySQL",
   "PostgreSQL", "Redis", "Firebase", "Webpack", "Babel"]

/-- Validity of the dynamically built pattern of line 36 of the client
helper, a word boundary, the raw keyword, a word boundary.  A JS quantifier
character with nothing to repeat (at the start of the keyword body or
directly after another quantifier) makes the pattern a syntax error; this is
the nothing-to-repeat rule of the regex grammar, under which the keyword
containing a doubled plus fails to compile. -/
def wordPatternValid (kw : List Char) : Bool :=
  go 0 kw
where
  /-- State zero: nothing to quantify; one: after an atom; two: after a
  quantifier prefix, where only the lazy question mark may follow. -/
  go : Nat → List Char → Bool
    | _, [] => true
    | st, c :: rest =>
      if c = '+' ∨ c = '*' then decide (st = 1) && go 2 rest
      else if c = '?' then decide (st = 1 ∨ st = 2) && go (if st = 2 then 0 else 2) rest
      else go 1 rest

/-- A word boundary between two adjacent text positions: exactly one side
is a word character, an absent side counting as non-word. -/
def atBoundary (a b : Option Char) : Bool :=
  (match a with | some c => jsWord c | none => false) ≠
  (match b with | some c => jsWord c | none => false)

/-- Match the keyword pattern body at the head of the input: a dot matches
any character, every other keyword character matches case-insensitively
(the i flag); returns the remaining input on success. -/
def kwMatchHere : List Char → List Char → Option (List Char)
  | [], l => some l
  | _ :: _, [] => none
  | k :: ks, c :: cs =>
    if k = '.' then kwMatchHere ks cs
    else if c.toLower = k.toLower then kwMatchHere ks cs else none

/-- The word-boundary keyword test of line 36 of the client helper: some
position where the keyword body matches with a word boundary on each side. -/
def testKw (kw : List Char) (text : List Char) : Bool :=
  go none text
where
  go : Option Char → List Char → Bool
    | prev, l =>
      (match kwMatchHere kw l with
       | some rest =>
         atBoundary prev l.head? &&
           atBoundary ((l.take (l.length - rest.length)).getLast? <|> prev) rest.head?
       | none => false) ||
      (match l with
       | [] => false
       | c :: cs => go (some c) cs)

/-- The filter of lines 35-37 of the client helper, evaluated left to right:
each keyword first compiles its pattern (throwing on an invalid one), then
tests it against the text. -/
def filterKws (text : List Char) : List String → Except String (List String)
  | [] => .ok []
  | kw :: rest =>
    if wordPatternValid kw.data then
      (filterKws text rest).map fun tl =>
        if testKw kw.data text then kw :: tl else tl
    else .error "Invalid regular expression: nothing to repeat"

/-- extractKeySkills, lines 10-40 of the client helper: the keyword table
filtered by the word-boundary test, deduplicated.  The error branch carries
a thrown regex syntax error. -/
def extractKeySkills (text : String) : Except String (List String) :=
  (filterKws text.data allKeywords).map dedupFirst

/-- formatResumeForDisplay, lines 45-52 of the client helper: when the
skills list is empty it is replaced by the keyword extraction from the raw
text; otherwise the record is returned as received. -/
def formatResumeForDisplay (resume : Resume) : Except String Resume :=
  if resume.skills.isEmpty then
    (extractKeySkills resume.rawText).map fun ks => { resume with skills := ks }
  else .ok resume

/-! ### Properties of insertion-ordered deduplication -/

theorem mem_dedupFirstAux {a : String} :
    ∀ (seen l : List String), a ∈ dedupFirstAux seen l ↔ a ∈ l ∧ a ∉ seen := by
  intro seen l
  induction l generalizing seen with
  | nil => simp [dedupFirstAux]
  | cons x xs ih =>
    by_cases hx : x ∈ seen
    · rw [dedupFirstAux, if_pos hx, ih]
      constructor
      · rintro ⟨h1, h2⟩
        exact ⟨List.mem_cons_of_mem _ h1, h2⟩
      · rintro ⟨h1, h2⟩
        rcases List.mem_cons.mp h1 with h | h
        · exact absurd (h ▸ hx) h2
        · exact ⟨h, h2⟩
    · rw [dedupFirstAux, if_neg hx]
      constructor
      · intro h
        rcases List.mem_cons.mp h with h | h
        · exact ⟨h ▸ List.mem_cons_self x xs, h ▸ hx⟩
        · obtain ⟨h1, h2⟩ := (ih (x :: seen)).mp h
          exact ⟨List.mem_cons_of_mem _ h1, fun hs => h2 (List.mem_cons_of_mem _ hs)⟩
      · rintro ⟨h1, h2⟩
        rcases List.mem_cons.mp h1 with h | h
        · exact h ▸ List.mem_cons_self _ _
        · by_cases hax : a = x
          · exact hax ▸ List.mem_cons_self _ _
          · exact List.mem_cons_of_mem _
              ((ih (x :: seen)).mpr ⟨h, by simp [hax, h2]⟩)

theorem dedupFirstAux_sublist : ∀ (seen l : List String), List.Sublist (dedupFirstAux seen l) l := by
  intro seen l
  induction l generalizing seen with
  | nil => simp [dedupFirstAux]
  | cons x xs ih =>
    by_cases hx : x ∈ seen
    · rw [dedupFirstAux, if_pos hx]
      exact (ih seen).trans (List.sublist_cons_self x xs)
    · rw [dedupFirstAux, if_neg hx]
      exact (ih (x :: seen)).cons₂ x

theorem nodup_dedupFirstAux : ∀ (seen l : List String), (dedupFirstAux seen l).Nodup := by
  intro seen l
  induction l generalizing seen with
  | nil => simp [dedupFirstAux]
  | cons x xs ih =>
    by_cases hx : x ∈ seen
    · rw [dedupFirstAux, if_pos hx]
      exact ih seen
    · rw [dedupFirstAux, if_neg hx]
      refine List.nodup_cons.mpr ⟨fun hmem => ?_, ih (x :: seen)⟩
      exact ((mem_dedupFirstAux _ _).mp hmem).2 (List.mem_cons_self _ _)

theorem mem_dedupFirst {a : String} {l : List String} : a ∈ dedupFirst l ↔ a ∈ l := by
  rw [dedupFirst, mem_dedupFirstAux]
  simp

theorem dedupFirst_sublist (l : List String) : List.Sublist (dedupFirst l) l :=
  dedupFirstAux_sublist [] l

theorem nodup_dedupFirst (l : List String) : (dedupFirst l).Nodup :=
  nodup_dedupFirstAux [] l

/-! ### UTF-8 round trip: decoding inverts encoding -/

theorem utf8Decode_encodeChar (c : Char) (bs : List Nat) :
    utf8Decode (utf8EncodeChar c ++ bs) = c :: utf8Decode bs := by
  have hv : c.toNat < 0xd800 ∨ (0xdfff < c.toNat ∧ c.toNat < 0x110000) := c.valid
  by_cases h1 : c.toNat < 0x80
  · simp only [utf8EncodeChar, if_pos h1, List.cons_append, List.nil_append]
    conv_lhs => rw [utf8Decode.eq_def]
    dsimp only
    rw [if_pos h1, Char.ofNat_toNat]
  · by_cases h2 : c.toNat < 0x800
    · simp only [utf8EncodeChar, if_neg h1, if_pos h2, List.cons_append, List.nil_append]
      conv_lhs => rw [utf8Decode.eq_def]
      dsimp only
      rw [if_neg (by omega), if_neg (by omega), if_pos (by omega),
        if_pos (show isCont (0x80 + c.toNat % 64) = true by
          simp only [isCont, decide_eq_true_eq]; omega)]
      rw [show (0xc0 + c.toNat / 64 - 0xc0) * 64 + (0x80 + c.toNat % 64 - 0x80) = c.toNat
        by omega, Char.ofNat_toNat]
    · by_cases h3 : c.toNat < 0x10000
      · simp only [utf8EncodeChar, if_neg h1, if_neg h2, if_pos h3, List.cons_append,
          List.nil_append]
        conv_lhs => rw [utf8Decode.eq_def]
        dsimp only
        rw [if_neg (by omega), if_neg (by omega), if_neg (by omega), if_pos (by omega)]
        have hcond : (if 0xe0 + c.toNat / 4096 = 0xe0 then
            0xa0 ≤ 0x80 + c.toNat / 64 % 64 ∧ 0x80 + c.toNat / 64 % 64 < 0xc0
          else if 0xe0 + c.toNat / 4096 = 0xed then
            0x80 ≤ 0x80 + c.toNat / 64 % 64 ∧ 0x80 + c.toNat / 64 % 64 < 0xa0
          else isCont (0x80 + c.toNat / 64 % 64)) := by
          by_cases he : 0xe0 + c.toNat / 4096 = 0xe0
          · rw [if_pos he]; omega
          · rw [if_neg he]
            by_cases hd : 0xe0 + c.toNat / 4096 = 0xed
            · rw [if_pos hd]
              rcases hv with hv | hv <;> omega
            · rw [if_neg hd]
              simp only [isCont, decide_eq_true_eq]; omega
        rw [if_pos hcond,
          if_pos (show isCont (0x80 + c.toNat % 64) = true by
            simp only [isCont, decide_eq_true_eq]; omega)]
        rw [show (0xe0 + c.toNat / 4096 - 0xe0) * 4096 +
            (0x80 + c.toNat / 64 % 64 - 0x80) * 64 + (0x80 + c.toNat % 64 - 0x80) = c.toNat
          by omega, Char.ofNat_toNat]
      · simp only [utf8EncodeChar, if_neg h1, if_neg h2, if_neg h3, List.cons_append,
          List.nil_append]
        conv_lhs => rw [utf8Decode.eq_def]
        dsimp only
        rw [if_neg (by omega), if_neg (by omega), if_neg (by omega), if_neg (by omega),
          if_pos (by rcases hv with hv | hv <;> omega)]
        have hcond : (if 0xf0 + c.toNat / 262144 = 0xf0 then
            0x90 ≤ 0x80 + c.toNat / 4096 % 64 ∧ 0x80 + c.toNat / 4096 % 64 < 0xc0
          else if 0xf0 + c.toNat / 262144 = 0xf4 then
            0x80 ≤ 0x80 + c.toNat / 4096 % 64 ∧ 0x80 + c.toNat / 4096 % 64 < 0x90
          else isCont (0x80 + c.toNat / 4096 % 64)) := by
          by_cases he : 0xf0 + c.toNat / 262144 = 0xf0
          · rw [if_pos he]; omega
          · rw [if_neg he]
            by_cases hd : 0xf0 + c.toNat / 262144 = 0xf4
            · rw [if_pos hd]
              rcases hv with hv | hv <;> omega
            · rw [if_neg hd]
              simp only [isCont, decide_eq_true_eq]; omega
        rw [if_pos hcond,
          if_pos (show isCont (0x80 + c.toNat / 64 % 64) = true by
            simp only [isCont, decide_eq_true_eq]; omega),
          if_pos (show isCont (0x80 + c.toNat % 64) = true by
            simp only [isCont, decide_eq_true_eq]; omega)]
        rw [show (0xf0 + c.toNat / 262144 - 0xf0) * 262144 +
            (0x80 + c.toNat / 4096 % 64 - 0x80) * 4096 +
            (0x80 + c.toNat / 64 % 64 - 0x80) * 64 + (0x80 + c.toNat % 64 - 0x80) = c.toNat
          by omega, Char.ofNat_toNat]

theorem utf8Decode_encode (l : List Char) : utf8Decode (utf8Encode l) = l := by
  induction l with
  | nil => rfl
  | cons c cs ih =>
    show utf8Decode (utf8EncodeChar c ++ utf8Encode cs) = c :: cs
    rw [utf8Decode_encodeChar, ih]

/-! ### The leftmost-match characterisation of findFrom -/

theorem findFrom_of (re : RE) :
    ∀ (l : List Char) (i : Nat) (m r : List Char) (k : Caps),
      (mat re (l.drop i)).head? = some (m, r, k) →
      (∀ j < i, (mat re (l.drop j)).head? = none) →
      findFrom re l = some (i, m, r, k) := by
  intro l
  induction l with
  | nil =>
    intro i m r k h1 h2
    cases i with
    | zero =>
      have h1x : (mat re []).head? = some (m, r, k) := by simpa using h1
      simp [findFrom, h1x]
    | succ n =>
      exact absurd ((h2 0 (Nat.succ_pos n)).symm.trans (by simpa using h1)) (by simp)
  | cons c rest ih =>
    intro i m r k h1 h2
    cases i with
    | zero =>
      simp only [List.drop_zero] at h1
      simp only [findFrom, h1]
    | succ n =>
      have h0 : (mat re (c :: rest)).head? = none := h2 0 (Nat.succ_pos n)
      simp only [findFrom, h0]
      have := ih n m r k (by simpa using h1) (fun j hj => by simpa using h2 (j + 1) (by omega))
      rw [this]
      rfl

theorem findFrom_spec (re : RE) :
    ∀ (l : List Char) (i : Nat) (m r : List Char) (k : Caps),
      findFrom re l = some (i, m, r, k) →
      (mat re (l.drop i)).head? = some (m, r, k) ∧
        ∀ j < i, (mat re (l.drop j)).head? = none := by
  intro l
  induction l with
  | nil =>
    intro i m r k h
    simp only [findFrom] at h
    cases hh : (mat re []).head? with
    | none => rw [hh] at h; simp at h
    | some x =>
      rw [hh] at h
      simp only [Option.map_some'] at h
      obtain ⟨h0, hx⟩ : 0 = i ∧ x = (m, r, k) := by
        have := h
        cases this
        exact ⟨rfl, rfl⟩
      subst h0
      refine ⟨by simpa [hx] using hh, by omega⟩
  | cons c rest ih =>
    intro i m r k h
    simp only [findFrom] at h
    cases hh : (mat re (c :: rest)).head? with
    | some x =>
      rw [hh] at h
      cases h
      exact ⟨by simpa using hh, by omega⟩
    | none =>
      rw [hh] at h
      cases hf : findFrom re rest with
      | none => rw [hf] at h; simp at h
      | some y =>
        rw [hf] at h
        simp only [Option.map_some'] at h
        obtain ⟨i', m', r', k'⟩ := y
        obtain ⟨hy, hmk⟩ : i' + 1 = i ∧ (m', r', k') = (m, r, k) := by
          cases h; exact ⟨rfl, rfl⟩
        cases hmk
        subst hy
        obtain ⟨ha, hb⟩ := ih i' m r k hf
        refine ⟨by simpa using ha, ?_⟩
        intro j hj
        cases j with
        | zero => simpa using hh
        | succ j' => simpa using hb j' (by omega)

/-! ### Shared helper lemmas -/

/-- The keyword filter of the client helper always throws: the keyword list
contains the doubled-plus keyword, whose dynamically built pattern violates
the nothing-to-repeat rule, and the filter reaches it for every input
text. -/
theorem extractKeySkills_error (s : String) :
    extractKeySkills s = .error "Invalid regular expression: nothing to repeat" := by
  simp +decide [extractKeySkills, allKeywords, filterKws, Except.map]

/-! ### The claims -/

/-- C1.  For every input text, the record returned by parseResumeText has
qualifications and skills present as lists; each contains no duplicate
entries under case-sensitive string equality and preserves first-seen order
of the raw matches (it is a subsequence of the raw match list holding
exactly its members); with no degree-pattern matches, qualifications is the
empty list, not absent. -/
theorem parse_sets_nodup_ordered_lists (t : String) :
    ∃ qs ss : List String,
      (parseResumeText t).qualifications = some qs ∧
      (parseResumeText t).skills = some ss ∧
      qs.Nodup ∧ ss.Nodup ∧
      List.Sublist qs (degreesRaw t.data) ∧
      List.Sublist ss (skillTableRaw t.data ++ skillsSectionTokens t.data) ∧
      (∀ x, x ∈ qs ↔ x ∈ degreesRaw t.data) ∧
      (∀ x, x ∈ ss ↔ x ∈ skillTableRaw t.data ++ skillsSectionTokens t.data) ∧
      (degreesRaw t.data = [] → qs = []) :=
  ⟨dedupFirst (degreesRaw t.data),
   dedupFirst (skillTableRaw t.data ++ skillsSectionTokens t.data),
   rfl, rfl, nodup_dedupFirst _, nodup_dedupFirst _,
   dedupFirst_sublist _, dedupFirst_sublist _,
   fun _ => mem_dedupFirst, fun _ => mem_dedupFirst,
   fun h => by rw [h]; rfl⟩

/-- Witness for C1 at the empty text: both lists are present and empty. -/
theorem parse_sets_nodup_ordered_lists_witness :
    (parseResumeText "").qualifications = some [] ∧
    (parseResumeText "").skills = some [] := by
  obtain ⟨qs, ss, hq, hs, -, -, -, hsubs, -, -, hemp⟩ :=
    parse_sets_nodup_ordered_lists ""
  refine ⟨by rw [hq, hemp (by decide)], ?_⟩
  have h0 : skillTableRaw "".data ++ skillsSectionTokens "".data = ([] : List String) := by
    decide
  rw [h0] at hsubs
  rw [hs, List.sublist_nil.mp hsubs]

/-- C2.  For every byte buffer that is valid UTF-8, extraction with the
plain-text content type is the lossless UTF-8 passthrough: on the encoding
of any character sequence, extractTextFromFile returns exactly that
sequence, nothing added, dropped or replaced. -/
theorem extract_text_plain_roundtrip (pdfDec docxDec : List Nat → String) (l : List Char) :
    extractTextFromFile pdfDec docxDec (utf8Encode l) "text/plain" =
      .ok (String.mk l) := by
  rw [extractTextFromFile, if_neg (by decide), if_neg (by decide), if_pos rfl]
  show Except.ok (String.mk (utf8Decode (utf8Encode l))) = _
  rw [utf8Decode_encode]

/-- C4.  For every input text, parseResumeText terminates and returns a
record (it is a total function of this development); the two list fields
are always present, and every failing pattern search yields an absent
field: no failure is ever raised. -/
theorem parser_total_and_optional_fields (t : String) :
    (parseResumeText t).qualifications.isSome = true ∧
    (parseResumeText t).skills.isSome = true ∧
    (findLineStart nameRE t.data = none → (parseResumeText t).name = none) ∧
    (findFrom emailRE t.data = none → (parseResumeText t).email = none) ∧
    (findFrom phoneRE t.data = none → (parseResumeText t).phone = none) ∧
    (findFrom expYearsRE t.data = none → (parseResumeText t).totalYears = none) ∧
    (sectionCapture "experience" t.data = none →
      (parseResumeText t).lastPosition = none) := by
  refine ⟨rfl, rfl, ?_, ?_, ?_, ?_, ?_⟩ <;> intro h <;> simp [parseResumeText, h]

/-- Witness for C4 at the empty text: every search fails and every optional
field is absent while the two lists are present. -/
theorem parser_total_and_optional_fields_witness :
    (parseResumeText "").name = none ∧ (parseResumeText "").email = none ∧
    (parseResumeText "").phone = none ∧ (parseResumeText "").totalYears = none ∧
    (parseResumeText "").lastPosition = none ∧
    (parseResumeText "").qualifications.isSome = true ∧
    (parseResumeText "").skills.isSome = true := by
  obtain ⟨h1, h2, h3, h4, h5, h6, h7⟩ := parser_total_and_optional_fields ""
  exact ⟨h3 (by decide), h4 (by decide), h5 (by decide), h6 (by decide),
    h7 (by decide), h1, h2⟩

/-- C10.  For every byte buffer, valid UTF-8 or not, extractTextFromTXT is
exactly the lossy UTF-8 decoding; the underlying buffer-to-string
conversion always succeeds, so the catch branch producing the TXT sentinel
is unreachable. -/
theorem extract_txt_total_no_sentinel (buf : List Nat) :
    extractTextFromTXT buf = String.mk (utf8Decode buf) ∧
    bufferToStringUtf8 buf = .ok (String.mk (utf8Decode buf)) :=
  ⟨rfl, rfl⟩

/-- C3.  For every buffer and content type outside the three supported
ones, extractTextFromFile fails with the unsupported-type error naming that
content type; for the three supported types it never raises this error. -/
theorem extract_unsupported_type_error (pdfDec docxDec : List Nat → String)
    (buf : List Nat) (ct : String) :
    (ct ≠ "application/pdf" → ct ≠ docxType → ct ≠ "text/plain" →
      extractTextFromFile pdfDec docxDec buf ct =
        .error ("Unsupported file type: " ++ ct)) ∧
    (ct = "application/pdf" ∨ ct = docxType ∨ ct = "text/plain" →
      ∃ s, extractTextFromFile pdfDec docxDec buf ct = .ok s) := by
  constructor
  · intro h1 h2 h3
    rw [extractTextFromFile, if_neg h1, if_neg h2, if_neg h3]
  · rintro (h | h | h) <;> subst h
    · exact ⟨pdfDec buf, by rw [extractTextFromFile, if_pos rfl]⟩
    · exact ⟨docxDec buf, by
        rw [extractTextFromFile, if_neg (by decide), if_pos rfl]⟩
    · exact ⟨extractTextFromTXT buf, by
        rw [extractTextFromFile, if_neg (by decide), if_neg (by decide), if_pos rfl]⟩

/-- Witness for C3: an image type yields the error naming it, and the
plain-text type succeeds. -/
theorem extract_unsupported_type_error_witness :
    extractTextFromFile (fun _ => "") (fun _ => "") [] "image/png" =
      .error ("Unsupported file type: " ++ "image/png") ∧
    ∃ s, extractTextFromFile (fun _ => "") (fun _ => "") [] "text/plain" = .ok s :=
  ⟨(extract_unsupported_type_error (fun _ => "") (fun _ => "") [] "image/png").1
      (by decide) (by decide) (by decide),
   (extract_unsupported_type_error (fun _ => "") (fun _ => "") [] "text/plain").2
      (Or.inr (Or.inr rfl))⟩

/-- C5 counterexample.  The text consisting of fifteen-plus years of
experience contains the five-plus substring, yet totalYears is fifteen
years, not five: containment of the quoted substring does not pin the first
match. -/
theorem totalYears_contains_five_ce :
    hasSub "5+ years of experience".data "15+ years of experience".data = true ∧
    (parseResumeText "15+ years of experience").totalYears = some "15 years" ∧
    (parseResumeText "15+ years of experience").totalYears ≠ some "5 years" := by
  refine ⟨by decide, by decide, by decide⟩

/-- C5 (amended).  totalYears is taken from the first case-insensitive
match of the experience-years pattern, normalised to the captured digits
followed by years (dropping the plus and any of); in particular the text
that is exactly the five-plus phrase yields five years.  A text merely
containing that phrase may have an earlier or longer first match. -/
theorem totalYears_first_match_normalized :
    (∀ (t : String) (i : Nat) (m r : List Char) (k : Caps) (d : List Char),
        (mat expYearsRE (t.data.drop i)).head? = some (m, r, k) →
        (∀ j < i, (mat expYearsRE (t.data.drop j)).head? = none) →
        capLookup k 1 = some d →
        (parseResumeText t).totalYears = some (String.mk d ++ " years")) ∧
    (parseResumeText "5+ years of experience").totalYears = some "5 years" := by
  constructor
  · intro t i m r k d h1 h2 hd
    have hf := findFrom_of expYearsRE t.data i m r k h1 h2
    simp only [parseResumeText]
    rw [hf]
    simp [hd]
  · decide

/-- Witness for C5: the first match of the pattern in the five-plus phrase
is at offset zero with the digit five captured, and the theorem yields
five years. -/
theorem totalYears_first_match_normalized_witness :
    (parseResumeText "5+ years of experience").totalYears = some "5 years" := by
  have h := totalYears_first_match_normalized.1 "5+ years of experience" 0
    "5+ years of experience".data [] [(1, ['5'])] ['5'] (by decide)
    (fun j hj => absurd hj (Nat.not_lt_zero j)) (by decide)
  exact h.trans (by decide)

/-- C6 counterexample.  A text containing the quoted address after an
earlier address-shaped substring extracts the earlier one: containment does
not make the quoted address the extracted email. -/
theorem email_contains_ce :
    hasSub "jane.doe@example.com".data "a@b.cc jane.doe@example.com".data = true ∧
    (parseResumeText "a@b.cc jane.doe@example.com").email = some "a@b.cc" ∧
    (parseResumeText "a@b.cc jane.doe@example.com").email ≠
      some "jane.doe@example.com" := by
  refine ⟨by decide, by decide, by decide⟩

/-- C6 (amended).  The email field is the trimmed first substring matching
the address pattern; in particular the text that is exactly the quoted
address yields that exact string.  A text merely containing it may yield an
earlier or longer first match. -/
theorem email_first_match :
    (∀ (t : String) (i : Nat) (m r : List Char) (k : Caps),
        (mat emailRE (t.data.drop i)).head? = some (m, r, k) →
        (∀ j < i, (mat emailRE (t.data.drop j)).head? = none) →
        (parseResumeText t).email = some (String.mk (jsTrim m))) ∧
    (parseResumeText "jane.doe@example.com").email = some "jane.doe@example.com" := by
  constructor
  · intro t i m r k h1 h2
    have hf := findFrom_of emailRE t.data i m r k h1 h2
    simp only [parseResumeText]
    rw [hf]
    rfl
  · decide

/-- Witness for C6: the first match in the exact-address text is at offset
zero and the theorem yields the address itself. -/
theorem email_first_match_witness :
    (parseResumeText "jane.doe@example.com").email = some "jane.doe@example.com" := by
  have h := email_first_match.1 "jane.doe@example.com" 0
    "jane.doe@example.com".data [] [] (by decide)
    (fun j hj => absurd hj (Nat.not_lt_zero j))
  exact h.trans (by decide)

/-- C7.  At the failing input, a skills section whose body holds a bullet
between two words: the split class of the source holds the three mojibake
characters rather than the bullet, so the body stays one token and the
individual words are not extracted, against the code comment stating a
split by commas, bullets or newlines.  The comma-separated body of the
claim does behave as described. -/
theorem skills_split_mojibake_bug :
    ((parseResumeText "Skills: Excel • Word\n\n").skills =
        some ["Excel • Word"] ∧
      "Excel" ∉ ["Excel • Word"] ∧ "Word" ∉ ["Excel • Word"]) ∧
    (∃ ss, (parseResumeText "Skills: Python, Excel, SQL\n\n").skills = some ss ∧
      "Python" ∈ ss ∧ "Excel" ∈ ss ∧ "SQL" ∈ ss) := by
  exact ⟨by decide, ⟨["Python", "SQL", "Excel"], by decide, by decide, by decide, by decide⟩⟩

/-- C8.  With a detected experience section whose body is non-empty and in
which the line-start title pattern does not match, lastPosition is the
first title of the fixed positions list, in list order, appearing as a
substring of the section, suffixed by at-company when the company pattern
matches with a truthy capture, and absent when no listed title occurs. -/
theorem lastPosition_fixed_list_order (t : String) (sec : List Char)
    (h1 : sectionCapture "experience" t.data = some sec) (h2 : sec ≠ [])
    (h3 : findLineStart jobRE sec = none) :
    (parseResumeText t).lastPosition =
      (positions.find? fun p => hasSub p.data sec).map fun p =>
        match findFrom (companyRE p) sec with
        | some y =>
          match capLookup y.2.2.2 1 with
          | some v => if v ≠ [] then p ++ " at " ++ String.mk (jsTrim v) else p
          | none => p
        | none => p := by
  simp only [parseResumeText, h1]
  rw [if_neg h2]
  simp only [lastPositionOf, h3]

/-- Witness for C8: a one-line section starting with a dash defeats the
line-start pattern; the section mentions the sixth-listed title before the
first-listed one, and the first-listed title wins. -/
theorem lastPosition_fixed_list_order_witness :
    sectionCapture "experience"
        ("experience: - Data Scientist, - Software Engineer\n\n").data =
      some ("- Data Scientist, - Software Engineer").data ∧
    findLineStart jobRE ("- Data Scientist, - Software Engineer").data = none ∧
    (parseResumeText "experience: - Data Scientist, - Software Engineer\n\n").lastPosition =
      some "Software Engineer" := by
  refine ⟨by decide, by decide, ?_⟩
  have h := lastPosition_fixed_list_order
    "experience: - Data Scientist, - Software Engineer\n\n"
    ("- Data Scientist, - Software Engineer").data (by decide) (by decide) (by decide)
  exact h.trans (by decide)

/-- C9 counterexample.  A record produced by processResume from an empty
plain-text upload has an empty skills list; the display helper does not
return it unchanged (its keyword recomputation throws on the doubled-plus
keyword pattern). -/
theorem format_resume_mutates_ce :
    (processResume (fun _ => "") (fun _ => "") "id0" "resume.txt" "text/plain" [] =
      .ok ({ id := "id0",
             filename := "resume.txt",
             contentType := "text/plain",
             rawText := "" } : Resume)) ∧
    formatResumeForDisplay ({ id := "id0",
                              filename := "resume.txt",
                              contentType := "text/plain",
                              rawText := "" } : Resume) ≠
      .ok ({ id := "id0",
             filename := "resume.txt",
             contentType := "text/plain",
             rawText := "" } : Resume) := by
  constructor
  · rfl
  · intro hEq
    have h2 : formatResumeForDisplay ({ id := "id0",
                                        filename := "resume.txt",
                                        contentType := "text/plain",
                                        rawText := "" } : Resume) =
        .error "Invalid regular expression: nothing to repeat" := by
      simp [formatResumeForDisplay, extractKeySkills_error, Except.map]
    rw [h2] at hEq
    exact Except.noConfusion hEq

/-- C9 (amended).  The display helper returns any record with a non-empty
skills list unchanged; on an empty skills list it instead recomputes skills
from the raw text, and that recomputation throws the regex syntax error of
the doubled-plus keyword, so the record is never returned unchanged in that
case. -/
theorem format_resume_frame (r : Resume) :
    (r.skills ≠ [] → formatResumeForDisplay r = .ok r) ∧
    (r.skills = [] →
      formatResumeForDisplay r = .error "Invalid regular expression: nothing to repeat") := by
  constructor
  · intro h
    rw [formatResumeForDisplay, if_neg (by simp [List.isEmpty_iff, h])]
  · intro h
    rw [formatResumeForDisplay, if_pos (by simp [List.isEmpty_iff, h]),
      extractKeySkills_error]
    rfl

/-- Witness for C9: a record with one skill passes through unchanged; a
record with no skills yields the thrown error. -/
theorem format_resume_frame_witness :
    formatResumeForDisplay ({ id := "i",
                              filename := "f",
                              contentType := "text/plain",
                              rawText := "x",
                              skills := ["A"] } : Resume) =
      .ok ({ id := "i",
             filename := "f",
             contentType := "text/plain",
             rawText := "x",
             skills := ["A"] } : Resume) ∧
    formatResumeForDisplay ({ id := "i",
                              filename := "f",
                              contentType := "text/plain",
                              rawText := "x" } : Resume) =
      .error "Invalid regular expression: nothing to repeat" :=
  ⟨(format_resume_frame _).1 (by decide), (format_resume_frame _).2 rfl⟩

end TechHires
